import Mathlib

/-!
Verification of the multi-tier cache in `src/cache_manager.py` (class
`CacheManager`).  The Python code is shallowly embedded: timestamps are
naturals passed explicitly (the source reads the wall clock), the three
tiers (in-memory `OrderedDict`, SQLite table, file directory) become
association lists, and the external libraries the source calls
(`hashlib.sha256`, `pickle`, `gzip`, `sys.getsizeof`) are modelled by
executable Lean functions as documented at each definition.
-/

namespace RACache

/-! ## SHA-256 (model of `hashlib.sha256`, per FIPS 180-4)

The source derives cache keys with
`hashlib.sha256(key_data.encode()).hexdigest()[:32]`.  `hashlib` is an
external library; the functions below implement SHA-256 exactly as
specified by FIPS 180-4, over byte lists, with 32-bit words as naturals
reduced mod 2^32. -/

/-- Reduce a natural to a 32-bit word. -/
def w32 (n : Nat) : Nat := n % 4294967296

/-- Right rotation of a 32-bit word by n bits. -/
def rotr (n x : Nat) : Nat := w32 ((x >>> n) ||| (x <<< (32 - n)))

/-- FIPS 180-4 Ch function. -/
def shaCh (x y z : Nat) : Nat := (x &&& y) ^^^ ((x ^^^ 4294967295) &&& z)

/-- FIPS 180-4 Maj function. -/
def shaMaj (x y z : Nat) : Nat := (x &&& y) ^^^ (x &&& z) ^^^ (y &&& z)

/-- FIPS 180-4 big Sigma0. -/
def bigSigma0 (x : Nat) : Nat := rotr 2 x ^^^ rotr 13 x ^^^ rotr 22 x

/-- FIPS 180-4 big Sigma1. -/
def bigSigma1 (x : Nat) : Nat := rotr 6 x ^^^ rotr 11 x ^^^ rotr 25 x

/-- FIPS 180-4 small sigma0. -/
def smallSigma0 (x : Nat) : Nat := rotr 7 x ^^^ rotr 18 x ^^^ (x >>> 3)

/-- FIPS 180-4 small sigma1. -/
def smallSigma1 (x : Nat) : Nat := rotr 17 x ^^^ rotr 19 x ^^^ (x >>> 10)

/-- The 64 SHA-256 round constants, in decimal (fractional parts of the
cube roots of the first 64 primes, per FIPS 180-4 section 4.2.2). -/
def shaK : List Nat :=
  [1116352408, 1899447441, 3049323471, 3921009573, 961987163, 1508970993,
   2453635748, 2870763221, 3624381080, 310598401, 607225278, 1426881987,
   1925078388, 2162078206, 2614888103, 3248222580, 3835390401, 4022224774,
   264347078, 604807628, 770255983, 1249150122, 1555081692, 1996064986,
   2554220882, 2821834349, 2952996808, 3210313671, 3336571891, 3584528711,
   113926993, 338241895, 666307205, 773529912, 1294757372, 1396182291,
   1695183700, 1986661051, 2177026350, 2456956037, 2730485921, 2820302411,
   3259730800, 3345764771, 3516065817, 3600352804, 4094571909, 275423344,
   430227734, 506948616, 659060556, 883997877, 958139571, 1322822218,
   1537002063, 1747873779, 1955562222, 2024104815, 2227730452, 2361852424,
   2428436474, 2756734187, 3204031479, 3329325298]

/-- The SHA-256 initial hash value, in decimal (fractional parts of the
square roots of the first 8 primes, per FIPS 180-4 section 5.3.3). -/
def shaH0 : List Nat :=
  [1779033703, 3144134277, 1013904242, 2773480762,
   1359893119, 2600822924, 528734635, 1541459225]

/-- Big-endian 8-byte encoding of a natural (the padded bit length). -/
def be64 (n : Nat) : List Nat :=
  [(n >>> 56) &&& 255, (n >>> 48) &&& 255, (n >>> 40) &&& 255, (n >>> 32) &&& 255,
   (n >>> 24) &&& 255, (n >>> 16) &&& 255, (n >>> 8) &&& 255, n &&& 255]

/-- Big-endian 4-byte decomposition of a 32-bit word. -/
def bytesOfWord (w : Nat) : List Nat :=
  [(w >>> 24) &&& 255, (w >>> 16) &&& 255, (w >>> 8) &&& 255, w &&& 255]

/-- FIPS 180-4 padding: append 0x80, zeros to 56 mod 64, then the bit length. -/
def padMessage (msg : List Nat) : List Nat :=
  msg ++ 128 :: List.replicate ((119 - msg.length % 64) % 64) 0 ++ be64 (8 * msg.length)

/-- Group a byte list into big-endian 32-bit words. -/
def wordsOfBytes : List Nat → List Nat
  | b0 :: b1 :: b2 :: b3 :: rest =>
      (((b0 * 256 + b1) * 256 + b2) * 256 + b3) :: wordsOfBytes rest
  | _ => []

/-- Extend the 16-word message schedule by the given number of words. -/
def extendSchedule : List Nat → Nat → List Nat
  | w, 0 => w
  | w, n + 1 =>
      let i := w.length
      let x := w32 (smallSigma1 (w.getD (i - 2) 0) + w.getD (i - 7) 0 +
                    smallSigma0 (w.getD (i - 15) 0) + w.getD (i - 16) 0)
      extendSchedule (w ++ [x]) n

/-- One SHA-256 round acting on the eight working variables. -/
def roundFn (st : Nat × Nat × Nat × Nat × Nat × Nat × Nat × Nat) (kw : Nat × Nat) :
    Nat × Nat × Nat × Nat × Nat × Nat × Nat × Nat :=
  match st with
  | (a, b, c, d, e, f, g, h) =>
    let t1 := w32 (h + bigSigma1 e + shaCh e f g + kw.1 + kw.2)
    let t2 := w32 (bigSigma0 a + shaMaj a b c)
    (w32 (t1 + t2), a, b, c, w32 (d + t1), e, f, g)

/-- Compress one 64-byte block into the running hash (eight 32-bit words). -/
def compressBlock (h : List Nat) (block : List Nat) : List Nat :=
  let w := extendSchedule (wordsOfBytes block) 48
  let a0 := h.getD 0 0
  let b0 := h.getD 1 0
  let c0 := h.getD 2 0
  let d0 := h.getD 3 0
  let e0 := h.getD 4 0
  let f0 := h.getD 5 0
  let g0 := h.getD 6 0
  let i0 := h.getD 7 0
  let r := (shaK.zip w).foldl roundFn (a0, b0, c0, d0, e0, f0, g0, i0)
  [w32 (a0 + r.1), w32 (b0 + r.2.1), w32 (c0 + r.2.2.1), w32 (d0 + r.2.2.2.1),
   w32 (e0 + r.2.2.2.2.1), w32 (f0 + r.2.2.2.2.2.1), w32 (g0 + r.2.2.2.2.2.2.1),
   w32 (i0 + r.2.2.2.2.2.2.2)]

/-- Split a list into 64-byte chunks; the fuel argument bounds the recursion. -/
def chunksAux : Nat → List Nat → List (List Nat)
  | 0, _ => []
  | fuel + 1, l => if l.isEmpty then [] else l.take 64 :: chunksAux fuel (l.drop 64)

/-- Split a byte list into 64-byte chunks. -/
def chunks64 (l : List Nat) : List (List Nat) := chunksAux l.length l

/-- SHA-256 digest (32 bytes) of a byte list. -/
def sha256Bytes (msg : List Nat) : List Nat :=
  (((chunks64 (padMessage msg)).foldl compressBlock shaH0).map bytesOfWord).flatten

/-- Lowercase hexadecimal character for a value below 16. -/
def hexChar (n : Nat) : Char := if n < 10 then Char.ofNat (48 + n) else Char.ofNat (87 + n)

/-- Lowercase hexadecimal string of a byte list, as returned by hexdigest. -/
def hexdigest (bytes : List Nat) : String :=
  String.mk ((bytes.map (fun b => [hexChar (b / 16), hexChar (b % 16)])).flatten)

/-! ## UTF-8 encoding (model of Python str.encode()) -/

/-- UTF-8 bytes of a single code point. -/
def utf8Char (c : Char) : List Nat :=
  let n := c.toNat
  if n < 128 then [n]
  else if n < 2048 then [192 ||| (n >>> 6), 128 ||| (n &&& 63)]
  else if n < 65536 then
    [224 ||| (n >>> 12), 128 ||| ((n >>> 6) &&& 63), 128 ||| (n &&& 63)]
  else
    [240 ||| (n >>> 18), 128 ||| ((n >>> 12) &&& 63), 128 ||| ((n >>> 6) &&& 63), 128 ||| (n &&& 63)]

/-- UTF-8 byte list of a string. -/
def utf8Bytes (s : String) : List Nat := (s.data.map utf8Char).flatten

/-! ## Key generation (CacheManager._generate_key) -/

/-- Python colon-join over a list of strings. -/
def joinColon : List String → String
  | [] => ""
  | [a] => a
  | a :: rest => a ++ ":" ++ joinColon rest

/-- Python string slicing s[:n]: the first n characters. -/
def strTake (s : String) (n : Nat) : String := String.mk (s.data.take n)

/-- Embedding of CacheManager._generate_key: join the components with ":",
then take the first 32 hex characters of the SHA-256 digest. -/
def generate_key (ns key : String) (args : List String) : String :=
  let key_data :=
    if args.isEmpty then ns ++ ":" ++ key
    else ns ++ ":" ++ key ++ ":" ++ joinColon args
  strTake (hexdigest (sha256Bytes (utf8Bytes key_data))) 32

/-! ## Values and serialization (model of Python objects and pickle)

The source caches arbitrary Python objects and serializes them with
pickle.  The model restricts the value universe to strings, integers,
byte strings, and one constructor for unserializable objects (closures,
open handles, or containers holding them), for which pickle raises.  The
byte format below is not CPython's pickle wire format (which is a
library detail), but an executable, injective length-prefixed encoding
with the same contract: dumps either fails or produces bytes from which
loads recovers an equal value. -/

inductive PyValue where
  /-- A Python str. -/
  | str : String → PyValue
  /-- A Python int. -/
  | int : Int → PyValue
  /-- A Python bytes object, as a list of byte values. -/
  | bytes : List Nat → PyValue
  /-- An object pickle cannot serialize; the field is its shallow
  in-memory size as reported by sys.getsizeof. -/
  | unpicklable : Nat → PyValue
deriving DecidableEq, Repr

/-- Little-endian base-256 digits, with structural fuel so that the
kernel can evaluate it; fuel n is always enough. -/
def natDigitsAux : Nat → Nat → List Nat
  | 0, _ => []
  | fuel + 1, n => if n = 0 then [] else n % 256 :: natDigitsAux fuel (n / 256)

/-- Little-endian base-256 digits of a natural. -/
def natDigits (n : Nat) : List Nat := natDigitsAux n n

/-- Length-prefixed encoding of a natural number. -/
def encNat (n : Nat) : List Nat := (natDigits n).length :: natDigits n

/-- Decode a length-prefixed natural, returning it with the remaining bytes. -/
def decNat : List Nat → Option (Nat × List Nat)
  | [] => none
  | k :: rest =>
      if rest.length < k then none
      else some (Nat.ofDigits 256 (rest.take k), rest.drop k)

/-- Encoding of a list of naturals: a length prefix, then each element. -/
def encList (l : List Nat) : List Nat := encNat l.length ++ (l.map encNat).flatten

/-- Decode a fixed number of length-prefixed naturals. -/
def decNats : Nat → List Nat → Option (List Nat × List Nat)
  | 0, rest => some ([], rest)
  | n + 1, rest =>
      (decNat rest).bind fun p =>
        (decNats n p.2).map fun q => (p.1 :: q.1, q.2)

/-- Decode a length-prefixed list of naturals. -/
def decList (bs : List Nat) : Option (List Nat × List Nat) :=
  (decNat bs).bind fun p => decNats p.1 p.2

/-- Model of pickle.dumps: fails on unserializable objects. -/
def pickleDumps : PyValue → Option (List Nat)
  | .str s => some (0 :: encList (s.data.map Char.toNat))
  | .int i => some (1 :: (if i < 0 then 1 else 0) :: encNat i.natAbs)
  | .bytes l => some (2 :: encList l)
  | .unpicklable _ => none

/-- Model of pickle.loads: inverse of pickleDumps on its image; returns
none on malformed input (the source catches the raised exception). -/
def pickleLoads : List Nat → Option PyValue
  | 0 :: rest =>
      (decList rest).bind fun p =>
        if p.2.isEmpty then some (.str (String.mk (p.1.map Char.ofNat))) else none
  | 1 :: sign :: rest =>
      (decNat rest).bind fun p =>
        if p.2.isEmpty then
          some (.int (if sign = 1 then -(p.1 : Int) else (p.1 : Int)))
        else none
  | 2 :: rest =>
      (decList rest).bind fun p =>
        if p.2.isEmpty then some (.bytes p.1) else none
  | _ => none

/-- Model of sys.getsizeof, the fallback in _estimate_size when pickling
fails: a shallow in-memory size.  Only the unpicklable case is ever
reached by the code (the fallback runs only when pickle.dumps raises);
for it the modelled object carries its own size. -/
def getsizeof : PyValue → Nat
  | .str s => 49 + s.length
  | .int _ => 28
  | .bytes l => 33 + l.length
  | .unpicklable sz => sz

/-- Embedding of CacheManager._estimate_size: length of the pickled
form, falling back to sys.getsizeof when pickling raises. -/
def estimate_size (v : PyValue) : Nat :=
  match pickleDumps v with
  | some bs => bs.length
  | none => getsizeof v

/-- Model of gzip compression of a byte stream.  The claims under proof
never inspect compressed bytes, only require that decompression undoes
compression, so the model uses the identity coder. -/
def gzipCompress (bs : List Nat) : List Nat := bs

/-- Model of gzip decompression; inverse of gzipCompress. -/
def gzipDecompress (bs : List Nat) : List Nat := bs

/-! ## Cache state (CacheManager fields)

The memory tier is the OrderedDict as an association list whose head is
the oldest (least recently used) entry; the SQLite table and the file
directory are lists of rows and of data-plus-metadata file pairs. -/

/-- A row of the cache_entries SQLite table. -/
structure DbRow where
  key : String
  value : List Nat
  created_at : Nat
  expires_at : Nat
  access_count : Nat
  last_accessed : Nat
  category : String
  size : Nat
deriving DecidableEq, Repr

/-- The JSON sidecar metadata of one file-cache entry. -/
structure FileMeta where
  expires_at : Nat
  created_at : Nat
  category : String
  size : Nat
  compressed : Bool
deriving DecidableEq, Repr

/-- One file-cache entry: the identifier names both the data file
key.cache (its bytes) and the metadata file key.meta. -/
structure FileEntry where
  key : String
  data : List Nat
  meta : FileMeta
deriving DecidableEq, Repr

/-- The cache_stats dictionary of counters. -/
structure CacheStats where
  hits : Nat
  misses : Nat
  evictions : Nat
  memory_size : Nat
  disk_size : Nat
deriving DecidableEq, Repr

/-- The cache configuration: TTL defaults per namespace plus the global
default and the compression flag (the fields the cache logic reads). -/
structure CacheConfig where
  ttl_default : Nat
  ttl_overrides : List (String × Nat)
  compression : Bool
deriving DecidableEq, Repr

/-- The built-in default configuration from _load_cache_config. -/
def defaultConfig : CacheConfig :=
  { ttl_default := 3600
    ttl_overrides := [("database", 1800), ("scripts", 7200), ("static", 86400)]
    compression := true }

/-- Lookup of config.get(ttl_namespace, config.ttl_default). -/
def ttlFor (cfg : CacheConfig) (ns : String) : Nat :=
  match cfg.ttl_overrides.find? (fun p => p.1 == ns) with
  | some p => p.2
  | none => cfg.ttl_default

/-- The mutable state of a CacheManager instance. -/
structure CacheState where
  max_memory_entries : Nat
  memory_cache : List (String × PyValue × Nat)
  db : List DbRow
  files : List FileEntry
  cache_stats : CacheStats
  config : CacheConfig
deriving DecidableEq, Repr

/-- A fresh CacheManager: max_memory_entries is derived from the memory
budget exactly as in init, and all tiers start empty. -/
def initState (max_memory_mb : Nat) : CacheState :=
  { max_memory_entries := max_memory_mb * 1024 * 1024 / 1024
    memory_cache := []
    db := []
    files := []
    cache_stats := { hits := 0, misses := 0, evictions := 0, memory_size := 0, disk_size := 0 }
    config := defaultConfig }

/-! ## OrderedDict operations on the memory tier -/

/-- Dictionary lookup in the ordered association list. -/
def odLookup (m : List (String × PyValue × Nat)) (k : String) : Option (PyValue × Nat) :=
  match m with
  | [] => none
  | p :: rest => if p.1 == k then some p.2 else odLookup rest k

/-- Python del d[k]: drop the entry with the given key. -/
def odRemove (m : List (String × PyValue × Nat)) (k : String) : List (String × PyValue × Nat) :=
  m.filter (fun p => !(p.1 == k))

/-- Python d[k] = v on an OrderedDict: replace in place when the key is
present, otherwise append at the most-recent end. -/
def odSet (m : List (String × PyValue × Nat)) (k : String) (v : PyValue × Nat) :
    List (String × PyValue × Nat) :=
  if (odLookup m k).isSome then m.map (fun p => if p.1 == k then (k, v) else p)
  else m ++ [(k, v)]

/-- OrderedDict move_to_end: move the entry for the key to the
most-recent end (a no-op when absent, though the source only calls it on
present keys). -/
def odMoveToEnd (m : List (String × PyValue × Nat)) (k : String) :
    List (String × PyValue × Nat) :=
  match odLookup m k with
  | none => m
  | some v => odRemove m k ++ [(k, v)]

/-- The while-loop of _set_memory_cache: pop the least recently used
entry until the size bound holds, counting one eviction per removal. -/
def evict_lru (maxEntries : Nat) : List (String × PyValue × Nat) → Nat →
    List (String × PyValue × Nat) × Nat
  | m, evs =>
    if m.length > maxEntries then
      match m with
      | [] => (m, evs)
      | _ :: rest => evict_lru maxEntries rest (evs + 1)
    else (m, evs)

/-! ## Tier write and read helpers -/

/-- Embedding of CacheManager._set_memory_cache. -/
def set_memory_cache (st : CacheState) (ck : String) (v : PyValue) (expires_at : Nat) :
    CacheState :=
  let m := odSet st.memory_cache ck (v, expires_at)
  let r := evict_lru st.max_memory_entries m st.cache_stats.evictions
  { st with memory_cache := r.1, cache_stats := { st.cache_stats with evictions := r.2 } }

/-- Embedding of CacheManager._set_database_cache: INSERT OR REPLACE of
the pickled value; a pickling failure is caught, printed, and swallowed,
leaving the table unchanged. -/
def set_database_cache (db : List DbRow) (ck : String) (v : PyValue) (expires_at : Nat)
    (category : String) (size : Nat) (now : Nat) : List DbRow :=
  match pickleDumps v with
  | none => db
  | some ser =>
      db.filter (fun r => !(r.key == ck)) ++
        [{ key := ck, value := ser, created_at := now, expires_at := expires_at,
           access_count := 0, last_accessed := now, category := category,
           size := if size = 0 then ser.length else size }]

/-- Embedding of CacheManager._set_file_cache: write the (optionally
compressed) pickled data file and its metadata file; a serialization
failure is caught, printed, and swallowed. -/
def set_file_cache (files : List FileEntry) (ck : String) (v : PyValue) (expires_at : Nat)
    (category : String) (compression : Bool) (now : Nat) : List FileEntry :=
  match pickleDumps v with
  | none => files
  | some ser =>
      let data := if compression then gzipCompress ser else ser
      files.filter (fun e => !(e.key == ck)) ++
        [{ key := ck, data := data,
           meta := { expires_at := expires_at, created_at := now, category := category,
                     size := data.length, compressed := compression } }]

/-- Embedding of CacheManager._get_from_database: SELECT the row whose
key matches with expires_at strictly above now; on a hit bump its access
statistics.  A deserialization failure rolls the transaction back and is
reported as a miss. -/
def get_from_database (db : List DbRow) (ck : String) (now : Nat) :
    Option (PyValue × Nat) × List DbRow :=
  match db.find? (fun r => r.key == ck && decide (now < r.expires_at)) with
  | some r =>
      match pickleLoads r.value with
      | some v =>
          (some (v, r.expires_at),
           db.map (fun r2 =>
             if r2.key == ck then
               { r2 with access_count := r2.access_count + 1, last_accessed := now }
             else r2))
      | none => (none, db)
  | none => (none, db)

/-- Embedding of CacheManager._get_from_file_cache: a present entry is
expired (and both files deleted) only when now is strictly greater than
its recorded expiry; otherwise decompress and deserialize, reporting a
read failure as a miss. -/
def get_from_file_cache (files : List FileEntry) (ck : String) (now : Nat) :
    Option (PyValue × Nat) × List FileEntry :=
  match files.find? (fun e => e.key == ck) with
  | none => (none, files)
  | some e =>
      if now > e.meta.expires_at then
        (none, files.filter (fun e2 => !(e2.key == ck)))
      else
        match pickleLoads (if e.meta.compressed then gzipDecompress e.data else e.data) with
        | some v => (some (v, e.meta.expires_at), files)
        | none => (none, files)

/-! ## Public operations -/

/-- The L2 and L3 probes of CacheManager.get, entered after the memory
tier missed: on an L2 hit promote to L1; on an L3 hit promote to L1 and
L2 (the L2 write passes size 0, so the stored size is the pickled
length); otherwise count a miss. -/
def get_lower (st : CacheState) (now : Nat) (ns ck : String) : Option PyValue × CacheState :=
  match get_from_database st.db ck now with
  | (some dv, db2) =>
      let st2 := set_memory_cache { st with db := db2 } ck dv.1 dv.2
      (some dv.1,
       { st2 with cache_stats := { st2.cache_stats with hits := st2.cache_stats.hits + 1 } })
  | (none, db2) =>
      let st2 := { st with db := db2 }
      match get_from_file_cache st2.files ck now with
      | (some fv, files2) =>
          let st3 := set_memory_cache { st2 with files := files2 } ck fv.1 fv.2
          let st4 := { st3 with db := set_database_cache st3.db ck fv.1 fv.2 ns 0 now }
          (some fv.1,
           { st4 with cache_stats := { st4.cache_stats with hits := st4.cache_stats.hits + 1 } })
      | (none, files2) =>
          (none,
           { st2 with files := files2,
                      cache_stats := { st2.cache_stats with misses := st2.cache_stats.misses + 1 } })

/-- Embedding of CacheManager.get: probe L1, then L2, then L3.  A
memory entry is live only while now is strictly below its expiry; an
expired memory entry is deleted on the way past. -/
def get (st : CacheState) (now : Nat) (ns key : String) (args : List String) :
    Option PyValue × CacheState :=
  let ck := generate_key ns key args
  match odLookup st.memory_cache ck with
  | some ve =>
      if now < ve.2 then
        (some ve.1,
         { st with memory_cache := odMoveToEnd st.memory_cache ck,
                   cache_stats := { st.cache_stats with hits := st.cache_stats.hits + 1 } })
      else
        get_lower { st with memory_cache := odRemove st.memory_cache ck } now ns ck
  | none => get_lower st now ns ck

/-- TTL resolution at the top of CacheManager.set: an explicit argument
wins, otherwise the per-namespace configured default, otherwise the
global default. -/
def resolve_ttl (cfg : CacheConfig) (ns : String) (ttl : Option Nat) : Nat :=
  match ttl with
  | some t => t
  | none => ttlFor cfg ns

/-- Embedding of CacheManager.set: resolve the TTL, estimate the
serialized size, and route the write to exactly one tier by the 1 KiB
and 1 MiB thresholds. -/
def set (st : CacheState) (now : Nat) (ns key : String) (v : PyValue)
    (ttl : Option Nat) (args : List String) : CacheState :=
  let t := resolve_ttl st.config ns ttl
  let ck := generate_key ns key args
  let expires_at := now + t
  let value_size := estimate_size v
  if value_size < 1024 then set_memory_cache st ck v expires_at
  else if value_size < 1024 * 1024 then
    { st with db := set_database_cache st.db ck v expires_at ns value_size now }
  else
    { st with files := set_file_cache st.files ck v expires_at ns st.config.compression now }

/-- Python str.startswith, stated over the character lists. -/
def startswith (s pre : String) : Bool := List.isPrefixOf pre.data s.data

/-- Embedding of CacheManager._invalidate_namespace: the memory tier is
swept by matching the namespace as a string prefix of the stored key,
the database by category equality, the file tier by metadata category
equality. -/
def invalidate_namespace (st : CacheState) (ns : String) : CacheState :=
  let keys_to_remove :=
    (st.memory_cache.filter (fun p => startswith p.1 ns)).map (fun p => p.1)
  { st with
      memory_cache := keys_to_remove.foldl (fun acc k => odRemove acc k) st.memory_cache,
      db := st.db.filter (fun r => !(r.category == ns)),
      files := st.files.filter (fun e => !(e.meta.category == ns)) }

/-- Embedding of CacheManager.invalidate: with a truthy key, delete that
identifier from every tier; otherwise purge the namespace.  Python
if key treats None and the empty string alike as falsy. -/
def invalidate (st : CacheState) (ns : String) (key : Option String) (args : List String) :
    CacheState :=
  match key with
  | some k =>
      if k == "" then invalidate_namespace st ns
      else
        let ck := generate_key ns k args
        { st with
            memory_cache := odRemove st.memory_cache ck,
            db := st.db.filter (fun r => !(r.key == ck)),
            files := st.files.filter (fun e => !(e.key == ck)) }
  | none => invalidate_namespace st ns

/-- Embedding of CacheManager.cleanup_expired: collect the memory keys
whose expiry lies strictly in the past and delete them, delete database
rows with expires_at below now, and delete file entries whose metadata
expiry lies strictly below now. -/
def cleanup_expired (st : CacheState) (now : Nat) : CacheState :=
  let expired_keys :=
    (st.memory_cache.filter (fun p => decide (now > p.2.2))).map (fun p => p.1)
  { st with
      memory_cache := expired_keys.foldl (fun acc k => odRemove acc k) st.memory_cache,
      db := st.db.filter (fun r => !(decide (r.expires_at < now))),
      files := st.files.filter (fun e => !(decide (now > e.meta.expires_at))) }

/-! ## Derived predicates used in the statements -/

/-- The identifier occurs nowhere in any tier. -/
def ckFresh (st : CacheState) (ck : String) : Bool :=
  st.memory_cache.all (fun p => !(p.1 == ck)) &&
  st.db.all (fun r => !(r.key == ck)) &&
  st.files.all (fun e => !(e.key == ck))

/-- Every copy stored under the identifier is past expiry: at or past it
for the memory and database tiers, strictly past it for the file tier
(whose expiry test in the source is strict in the other direction). -/
def all_copies_expired (st : CacheState) (ck : String) (now : Nat) : Bool :=
  st.memory_cache.all (fun p => !(p.1 == ck) || decide (p.2.2 ≤ now)) &&
  st.db.all (fun r => !(r.key == ck) || decide (r.expires_at ≤ now)) &&
  st.files.all (fun e => !(e.key == ck) || decide (e.meta.expires_at < now))

/-- Each tier holds at most one entry per identifier (dictionary,
primary-key, and filesystem semantics). -/
def wfKeys (st : CacheState) : Bool :=
  (st.memory_cache.map (fun p => p.1)).Nodup &&
  ((st.db.map DbRow.key).Nodup && (st.files.map FileEntry.key).Nodup)

/-- The identifier formula exactly as the spec words it: first 32 hex
characters of the SHA-256 digest of namespace, colon, key, extended by a
colon and the colon-join of extraArgs when extraArgs is non-empty.  Used
only to compare the source embedding against the spec. -/
def specIdentifier (ns key : String) (extraArgs : List String) : String :=
  strTake
    (hexdigest (sha256Bytes (utf8Bytes
      (ns ++ ":" ++ key ++ (if extraArgs.isEmpty then "" else ":" ++ joinColon extraArgs)))))
    32

/-- A cache state holding exactly one blob-tier entry, stored under the
identifier of namespace files and key big, expiring at time 5. -/
def c2CounterState : CacheState :=
  { initState 100 with
      files := [{ key := generate_key "files" "big" []
                  data := (pickleDumps (.str "v")).getD []
                  meta := { expires_at := 5, created_at := 0, category := "files",
                            size := 3, compressed := false } }] }

/-- A cache state with one entry per tier under the identifier of
namespace database and key q1, every copy already expired at time 5:
the memory copy expired at 3, the database row at 4, the blob entry
at 2. -/
def c2WitnessState : CacheState :=
  { initState 100 with
      memory_cache := [(generate_key "database" "q1" [], (.str "x", 3))]
      db := [{ key := generate_key "database" "q1" []
               value := (pickleDumps (.str "x")).getD []
               created_at := 0, expires_at := 4, access_count := 0, last_accessed := 0
               category := "database", size := 3 }]
      files := [{ key := generate_key "database" "q1" []
                  data := (pickleDumps (.str "x")).getD []
                  meta := { expires_at := 2, created_at := 0, category := "database",
                            size := 3, compressed := false } }] }

/-! ## Lemmas about the ordered dictionary and eviction loop -/

theorem odLookup_eq_none (m : List (String × PyValue × Nat)) (k : String)
    (h : ∀ p ∈ m, p.1 ≠ k) : odLookup m k = none := by
  induction m with
  | nil => rfl
  | cons p rest ih =>
    have hp : p.1 ≠ k := h p (List.mem_cons_self p rest)
    simp only [odLookup, beq_iff_eq, if_neg hp]
    exact ih fun q hq => h q (List.mem_cons_of_mem p hq)

theorem odLookup_append_single (m : List (String × PyValue × Nat)) (k : String)
    (x : PyValue × Nat) (h : ∀ p ∈ m, p.1 ≠ k) :
    odLookup (m ++ [(k, x)]) k = some x := by
  induction m with
  | nil => simp [odLookup]
  | cons p rest ih =>
    have hp : p.1 ≠ k := h p (List.mem_cons_self p rest)
    simp only [List.cons_append, odLookup, beq_iff_eq, if_neg hp]
    exact ih fun q hq => h q (List.mem_cons_of_mem p hq)

theorem odSet_fresh (m : List (String × PyValue × Nat)) (k : String) (x : PyValue × Nat)
    (h : ∀ p ∈ m, p.1 ≠ k) : odSet m k x = m ++ [(k, x)] := by
  simp [odSet, odLookup_eq_none m k h]

theorem evict_lru_eq_drop (maxEntries : Nat) :
    ∀ (m : List (String × PyValue × Nat)) (evs : Nat),
      evict_lru maxEntries m evs =
        (m.drop (m.length - maxEntries), evs + (m.length - maxEntries)) := by
  intro m
  induction m with
  | nil => intro evs; simp [evict_lru]
  | cons p rest ih =>
    intro evs
    simp only [evict_lru, List.length_cons]
    by_cases h : maxEntries < rest.length + 1
    · rw [if_pos h, ih (evs + 1)]
      have h2 : rest.length + 1 - maxEntries = (rest.length - maxEntries) + 1 := by omega
      rw [h2, List.drop_succ_cons]
      simp only [Prod.mk.injEq]
      refine ⟨trivial, by omega⟩
    · rw [if_neg h]
      have h2 : rest.length + 1 - maxEntries = 0 := by omega
      rw [h2, List.drop_zero]
      simp

theorem evict_lru_length_le (maxEntries : Nat) (m : List (String × PyValue × Nat)) (evs : Nat) :
    (evict_lru maxEntries m evs).1.length ≤ maxEntries := by
  rw [evict_lru_eq_drop]
  simp only [List.length_drop]
  omega

theorem set_memory_cache_lookup (st : CacheState) (ck : String) (v : PyValue) (e : Nat)
    (hfresh : ∀ p ∈ st.memory_cache, p.1 ≠ ck) (hmax : 1 ≤ st.max_memory_entries) :
    odLookup (set_memory_cache st ck v e).memory_cache ck = some (v, e) := by
  simp only [set_memory_cache, odSet_fresh st.memory_cache ck (v, e) hfresh,
    evict_lru_eq_drop]
  have hle : st.memory_cache.length + 1 - st.max_memory_entries ≤ st.memory_cache.length := by
    omega
  rw [show (st.memory_cache ++ [(ck, (v, e))]).length = st.memory_cache.length + 1 by simp,
    List.drop_append_of_le_length hle]
  exact odLookup_append_single _ ck (v, e)
    fun p hp => hfresh p (List.mem_of_mem_drop hp)

theorem set_memory_cache_length_le (st : CacheState) (ck : String) (v : PyValue) (e : Nat) :
    (set_memory_cache st ck v e).memory_cache.length ≤ st.max_memory_entries := by
  simp only [set_memory_cache]
  exact evict_lru_length_le _ _ _

/-! ## Lemmas about find? and filter over fresh keys -/

theorem find?_append_of_false {α : Type} (p : α → Bool) (l1 l2 : List α)
    (h : ∀ a ∈ l1, p a = false) : (l1 ++ l2).find? p = l2.find? p := by
  induction l1 with
  | nil => rfl
  | cons a rest ih =>
    have ha := h a (List.mem_cons_self a rest)
    simp only [List.cons_append, List.find?, ha]
    exact ih fun b hb => h b (List.mem_cons_of_mem a hb)

theorem filter_keep_of_ne {α : Type} (key : α → String) (l : List α) (ck : String)
    (h : ∀ a ∈ l, key a ≠ ck) : l.filter (fun a => !(key a == ck)) = l := by
  rw [List.filter_eq_self]
  intro a ha
  simp [h a ha]

/-! ## Lemmas about the digit codec and the pickle model -/

theorem natDigitsAux_eq (fuel : Nat) :
    ∀ n : Nat, n ≤ fuel → natDigitsAux fuel n = Nat.digits 256 n := by
  induction fuel with
  | zero =>
    intro n hn
    have h0 : n = 0 := Nat.le_zero.mp hn
    subst h0
    simp [natDigitsAux]
  | succ fuel ih =>
    intro n hn
    by_cases h0 : n = 0
    · subst h0; simp [natDigitsAux]
    · have hpos : 0 < n := Nat.pos_of_ne_zero h0
      have hdiv : n / 256 ≤ fuel := by
        have := Nat.div_lt_self hpos (by omega : 1 < 256)
        omega
      simp only [natDigitsAux, if_neg h0, ih (n / 256) hdiv]
      rw [Nat.digits_def' (by omega : 1 < 256) hpos]

theorem natDigits_eq (n : Nat) : natDigits n = Nat.digits 256 n :=
  natDigitsAux_eq n n (Nat.le_refl n)

theorem decNat_encNat (n : Nat) (t : List Nat) : decNat (encNat n ++ t) = some (n, t) := by
  simp only [encNat, List.cons_append, decNat]
  have hlen : ¬ ((natDigits n ++ t).length < (natDigits n).length) := by
    simp only [List.length_append]; omega
  rw [if_neg hlen, List.take_left, List.drop_left]
  rw [natDigits_eq, Nat.ofDigits_digits]

theorem decNats_enc (l : List Nat) (t : List Nat) :
    decNats l.length ((l.map encNat).flatten ++ t) = some (l, t) := by
  induction l generalizing t with
  | nil => rfl
  | cons x rest ih =>
    simp only [List.length_cons, List.map_cons, List.flatten_cons, List.append_assoc, decNats]
    rw [decNat_encNat x ((rest.map encNat).flatten ++ t)]
    simp [ih t]

theorem decList_enc (l : List Nat) (t : List Nat) : decList (encList l ++ t) = some (l, t) := by
  simp only [decList, encList, List.append_assoc]
  rw [decNat_encNat l.length ((l.map encNat).flatten ++ t)]
  simp [decNats_enc l t]

theorem pickle_roundtrip (v : PyValue) (bs : List Nat) (h : pickleDumps v = some bs) :
    pickleLoads bs = some v := by
  cases v with
  | str s =>
    simp only [pickleDumps, Option.some.injEq] at h
    subst h
    have hd := decList_enc (s.data.map Char.toNat) []
    rw [List.append_nil] at hd
    cases s with
    | mk data =>
      simp [pickleLoads, hd, Function.comp_def, Char.ofNat_toNat]
  | int i =>
    by_cases hneg : i < 0
    · simp only [pickleDumps, if_pos hneg, Option.some.injEq] at h
      subst h
      have hd := decNat_encNat i.natAbs []
      rw [List.append_nil] at hd
      simp [pickleLoads, hd]
      rw [abs_of_neg hneg, neg_neg]
    · simp only [pickleDumps, if_neg hneg, Option.some.injEq] at h
      subst h
      have hd := decNat_encNat i.natAbs []
      rw [List.append_nil] at hd
      simp [pickleLoads, hd]
      exact not_lt.mp hneg
  | bytes l =>
    simp only [pickleDumps, Option.some.injEq] at h
    subst h
    have hd := decList_enc l []
    rw [List.append_nil] at hd
    simp [pickleLoads, hd]
  | unpicklable sz => simp [pickleDumps] at h

/-! ## Characterization of bulk removal and cleanup -/

theorem foldl_odRemove_eq_filter (ks : List String) :
    ∀ m : List (String × PyValue × Nat),
      ks.foldl (fun acc k => odRemove acc k) m =
        m.filter (fun p => !(ks.contains p.1)) := by
  induction ks with
  | nil =>
    intro m
    simp [List.filter_eq_self]
  | cons k rest ih =>
    intro m
    simp only [List.foldl_cons]
    rw [ih (odRemove m k)]
    simp only [odRemove, List.filter_filter]
    apply List.filter_congr
    intro p hp
    simp only [List.contains_cons, Bool.not_or]
    cases p.1 == k <;> cases rest.contains p.1 <;> rfl

theorem odLookup_mem (m : List (String × PyValue × Nat)) (k : String) (x : PyValue × Nat)
    (h : odLookup m k = some x) : (k, x) ∈ m := by
  induction m with
  | nil => simp [odLookup] at h
  | cons p rest ih =>
    obtain ⟨pf, ps⟩ := p
    by_cases hk : pf == k
    · simp only [odLookup, if_pos hk, Option.some.injEq] at h
      simp only [beq_iff_eq] at hk
      subst hk
      subst h
      exact List.mem_cons_self _ _
    · simp only [odLookup, if_neg hk] at h
      exact List.mem_cons_of_mem _ (ih h)

theorem odRemove_length_lt (m : List (String × PyValue × Nat)) (k : String)
    (x : PyValue × Nat) (h : odLookup m k = some x) :
    (odRemove m k).length < m.length := by
  have hmem : (k, x) ∈ m := odLookup_mem m k x h
  induction m with
  | nil => simp at hmem
  | cons p rest ih =>
    simp only [odRemove, List.filter_cons]
    by_cases hk : p.1 == k
    · rw [if_neg (by simp [hk])]
      have := List.length_filter_le (fun p => !(p.1 == k)) rest
      simp only [List.length_cons]
      omega
    · rcases List.mem_cons.mp hmem with heq | hmem2
      · rw [← heq] at hk; simp at hk
      · have hlook : odLookup rest k = some x := by
          by_cases h2 : odLookup rest k = some x
          · exact h2
          · exfalso
            simp only [odLookup, if_neg hk] at h
            exact h2 h
        have := ih hlook hmem2
        rw [if_pos (by simp [hk])]
        simp only [odRemove] at this
        simp only [List.length_cons]
        omega

theorem odMoveToEnd_length_le (m : List (String × PyValue × Nat)) (k : String) :
    (odMoveToEnd m k).length ≤ m.length := by
  simp only [odMoveToEnd]
  cases h : odLookup m k with
  | none => exact Nat.le_refl _
  | some x =>
    have := odRemove_length_lt m k x h
    simp only [List.length_append, List.length_cons, List.length_nil]
    omega

theorem foldl_odRemove_length_le (ks : List String) (m : List (String × PyValue × Nat)) :
    (ks.foldl (fun acc k => odRemove acc k) m).length ≤ m.length := by
  rw [foldl_odRemove_eq_filter]
  exact List.length_filter_le _ m

/-! ## Reads after fresh writes -/

theorem get_from_db_fresh_none (db : List DbRow) (ck : String) (now : Nat)
    (h : ∀ r ∈ db, r.key ≠ ck) : get_from_database db ck now = (none, db) := by
  have hfind : db.find? (fun r => r.key == ck && decide (now < r.expires_at)) = none := by
    rw [List.find?_eq_none]
    intro r hr
    simp [h r hr]
  simp [get_from_database, hfind]

theorem get_from_file_fresh_none (files : List FileEntry) (ck : String) (now : Nat)
    (h : ∀ e ∈ files, e.key ≠ ck) : get_from_file_cache files ck now = (none, files) := by
  have hfind : files.find? (fun e => e.key == ck) = none := by
    rw [List.find?_eq_none]
    intro e he
    simp [h e he]
  simp [get_from_file_cache, hfind]

theorem get_from_db_after_set (db : List DbRow) (ck : String) (v : PyValue) (bs : List Nat)
    (e : Nat) (cat : String) (sz noww now2 : Nat)
    (hfresh : ∀ r ∈ db, r.key ≠ ck) (hser : pickleDumps v = some bs) (hn : now2 < e) :
    (get_from_database (set_database_cache db ck v e cat sz noww) ck now2).1 = some (v, e) := by
  simp only [set_database_cache, hser]
  rw [filter_keep_of_ne DbRow.key db ck hfresh]
  simp only [get_from_database]
  rw [find?_append_of_false _ db _ (fun r hr => by simp [hfresh r hr])]
  simp [List.find?_cons, hn, pickle_roundtrip v bs hser]

theorem get_from_file_after_set (files : List FileEntry) (ck : String) (v : PyValue)
    (bs : List Nat) (e : Nat) (cat : String) (comp : Bool) (noww now2 : Nat)
    (hfresh : ∀ f ∈ files, f.key ≠ ck) (hser : pickleDumps v = some bs) (hn : now2 ≤ e) :
    get_from_file_cache (set_file_cache files ck v e cat comp noww) ck now2 =
      (some (v, e), set_file_cache files ck v e cat comp noww) := by
  simp only [set_file_cache, hser]
  rw [filter_keep_of_ne FileEntry.key files ck hfresh]
  simp only [get_from_file_cache]
  rw [find?_append_of_false _ files _ (fun f hf => by simp [hfresh f hf])]
  cases comp <;>
    simp [List.find?_cons, show ¬ (now2 > e) from by omega, gzipCompress, gzipDecompress,
      pickle_roundtrip v bs hser]

/-! ## Shape lemmas for get -/

theorem get_eq_lower (st : CacheState) (now : Nat) (ns k : String) (args : List String)
    (hlook : odLookup st.memory_cache (generate_key ns k args) = none) :
    get st now ns k args = get_lower st now ns (generate_key ns k args) := by
  simp only [get, hlook]

theorem get_mem_expired_then (st : CacheState) (now : Nat) (ns k : String)
    (args : List String) (ve : PyValue × Nat)
    (hlook : odLookup st.memory_cache (generate_key ns k args) = some ve)
    (hexp : ¬ now < ve.2)
    (hlow : (get_lower
        { st with memory_cache := odRemove st.memory_cache (generate_key ns k args) }
        now ns (generate_key ns k args)).1 = none) :
    (get st now ns k args).1 = none := by
  simp only [get, hlook]
  rw [if_neg hexp]
  exact hlow

theorem get_mem_hit (st : CacheState) (now : Nat) (ns k : String) (args : List String)
    (v : PyValue) (e : Nat)
    (hlook : odLookup st.memory_cache (generate_key ns k args) = some (v, e))
    (he : now < e) : (get st now ns k args).1 = some v := by
  simp only [get, hlook]
  rw [if_pos he]

theorem get_lower_db_hit (st : CacheState) (now : Nat) (ns ck : String) (v : PyValue)
    (e : Nat) (h1 : (get_from_database st.db ck now).1 = some (v, e)) :
    (get_lower st now ns ck).1 = some v := by
  rcases hq : get_from_database st.db ck now with ⟨o, db2⟩
  rw [hq] at h1
  simp only at h1
  subst h1
  simp only [get_lower, hq]

theorem get_lower_file_hit (st : CacheState) (now : Nat) (ns ck : String) (v : PyValue)
    (e : Nat) (h1 : (get_from_database st.db ck now).1 = none)
    (h2 : (get_from_file_cache st.files ck now).1 = some (v, e)) :
    (get_lower st now ns ck).1 = some v := by
  rcases hq : get_from_database st.db ck now with ⟨o, db2⟩
  rw [hq] at h1
  simp only at h1
  subst h1
  rcases hf : get_from_file_cache st.files ck now with ⟨o2, files2⟩
  rw [hf] at h2
  simp only at h2
  subst h2
  simp only [get_lower, hq]
  have hfiles : ({ st with db := db2 } : CacheState).files = st.files := rfl
  rw [hfiles, hf]

/-! ## Cleanup characterization -/

theorem cleanup_mem_eq_filter (now : Nat) (m : List (String × PyValue × Nat))
    (hnd : (m.map (fun p => p.1)).Nodup) :
    ((m.filter (fun p => decide (now > p.2.2))).map (fun p => p.1)).foldl
        (fun acc k => odRemove acc k) m
      = m.filter (fun p => decide (now ≤ p.2.2)) := by
  rw [foldl_odRemove_eq_filter]
  apply List.filter_congr
  intro p hp
  by_cases hexp : now > p.2.2
  · have hmem : p.1 ∈ (m.filter (fun q => decide (now > q.2.2))).map (fun q => q.1) :=
      List.mem_map_of_mem _ (List.mem_filter.mpr ⟨hp, by simp [hexp]⟩)
    have hcont : ((m.filter (fun q => decide (now > q.2.2))).map
        (fun q => q.1)).contains p.1 = true := by
      simpa [List.contains, List.elem_eq_mem] using hmem
    rw [hcont]
    simp
    omega
  · have hnotmem : p.1 ∉ (m.filter (fun q => decide (now > q.2.2))).map (fun q => q.1) := by
      intro hmem
      obtain ⟨q, hq, hq1⟩ := List.mem_map.mp hmem
      obtain ⟨hqmem, hqexp⟩ := List.mem_filter.mp hq
      have hqp : q = p := List.inj_on_of_nodup_map hnd hqmem hp hq1
      subst hqp
      simp at hqexp
      omega
    have hcont : ((m.filter (fun q => decide (now > q.2.2))).map
        (fun q => q.1)).contains p.1 = false := by
      simpa [List.contains, List.elem_eq_mem] using hnotmem
    rw [hcont]
    simp
    omega

theorem filter_map_nodup {α β : Type} (f : α → β) (p : α → Bool) (l : List α)
    (hnd : (l.map f).Nodup) : ((l.filter p).map f).Nodup :=
  List.Nodup.sublist (List.Sublist.map f (List.filter_sublist l)) hnd

/-! ## Memory length preservation across the public operations -/

theorem get_lower_memory_length_le (st : CacheState) (now : Nat) (ns ck : String)
    (h : st.memory_cache.length ≤ st.max_memory_entries) :
    ((get_lower st now ns ck).2).memory_cache.length ≤ st.max_memory_entries := by
  simp only [get_lower]
  split
  · exact set_memory_cache_length_le _ _ _ _
  · split
    · exact set_memory_cache_length_le _ _ _ _
    · exact h

theorem get_memory_length_le (st : CacheState) (now : Nat) (ns k : String)
    (args : List String) (h : st.memory_cache.length ≤ st.max_memory_entries) :
    ((get st now ns k args).2).memory_cache.length ≤ st.max_memory_entries := by
  simp only [get]
  split
  · split
    · exact Nat.le_trans (odMoveToEnd_length_le _ _) h
    · refine get_lower_memory_length_le _ _ _ _ ?_
      exact Nat.le_trans (List.length_filter_le _ _) h
  · exact get_lower_memory_length_le _ _ _ _ h

theorem set_memory_length_le (st : CacheState) (now : Nat) (ns k : String) (v : PyValue)
    (ttl : Option Nat) (args : List String)
    (h : st.memory_cache.length ≤ st.max_memory_entries) :
    (set st now ns k v ttl args).memory_cache.length ≤ st.max_memory_entries := by
  simp only [set]
  split
  · exact set_memory_cache_length_le _ _ _ _
  · split
    · exact h
    · exact h

theorem invalidate_memory_length_le (st : CacheState) (ns : String) (key : Option String)
    (args : List String) (h : st.memory_cache.length ≤ st.max_memory_entries) :
    (invalidate st ns key args).memory_cache.length ≤ st.max_memory_entries := by
  simp only [invalidate, invalidate_namespace]
  split
  · split
    · exact Nat.le_trans (foldl_odRemove_length_le _ _) h
    · exact Nat.le_trans (List.length_filter_le _ _) h
  · exact Nat.le_trans (foldl_odRemove_length_le _ _) h

theorem cleanup_memory_length_le (st : CacheState) (now : Nat)
    (h : st.memory_cache.length ≤ st.max_memory_entries) :
    (cleanup_expired st now).memory_cache.length ≤ st.max_memory_entries := by
  simp only [cleanup_expired]
  exact Nat.le_trans (foldl_odRemove_length_le _ _) h

/-! ## Digest length facts -/

theorem compressBlock_length (h b : List Nat) : (compressBlock h b).length = 8 := rfl

theorem foldl_compress_length (blocks : List (List Nat)) :
    ∀ h : List Nat, h.length = 8 → (blocks.foldl compressBlock h).length = 8 := by
  induction blocks with
  | nil => intro h hh; exact hh
  | cons b rest ih =>
    intro h hh
    exact ih (compressBlock h b) (compressBlock_length h b)

theorem flatten_map_const_length {α β : Type} (f : α → List β) (c : Nat)
    (hf : ∀ a, (f a).length = c) (l : List α) :
    ((l.map f).flatten).length = c * l.length := by
  induction l with
  | nil => simp
  | cons a rest ih =>
    simp only [List.map_cons, List.flatten_cons, List.length_append, ih, hf a,
      List.length_cons]
    ring

theorem sha256Bytes_length (msg : List Nat) : (sha256Bytes msg).length = 32 := by
  simp only [sha256Bytes]
  rw [flatten_map_const_length bytesOfWord 4 (fun a => rfl)]
  rw [foldl_compress_length (chunks64 (padMessage msg)) shaH0 rfl]

theorem hexdigest_length (bytes : List Nat) : (hexdigest bytes).length = 2 * bytes.length := by
  simp only [hexdigest, String.length_mk]
  exact flatten_map_const_length (fun b => [hexChar (b / 16), hexChar (b % 16)]) 2
    (fun a => rfl) bytes

theorem generate_key_length_aux (s : String) : (strTake s 32).length = min 32 s.length := by
  simp [strTake, String.length_mk, List.length_take]

/-! ## Boolean-to-propositional bridges -/

theorem ckFresh_prop (st : CacheState) (ck : String) (h : ckFresh st ck = true) :
    (∀ p ∈ st.memory_cache, p.1 ≠ ck) ∧ (∀ r ∈ st.db, r.key ≠ ck) ∧
      (∀ e ∈ st.files, e.key ≠ ck) := by
  simp only [ckFresh, Bool.and_eq_true, List.all_eq_true] at h
  obtain ⟨⟨h1, h2⟩, h3⟩ := h
  refine ⟨fun p hp => ?_, fun r hr => ?_, fun e he => ?_⟩
  · simpa using h1 p hp
  · simpa using h2 r hr
  · simpa using h3 e he

theorem all_copies_expired_prop (st : CacheState) (ck : String) (now : Nat)
    (h : all_copies_expired st ck now = true) :
    (∀ p ∈ st.memory_cache, p.1 = ck → p.2.2 ≤ now) ∧
      (∀ r ∈ st.db, r.key = ck → r.expires_at ≤ now) ∧
      (∀ e ∈ st.files, e.key = ck → e.meta.expires_at < now) := by
  simp only [all_copies_expired, Bool.and_eq_true, List.all_eq_true] at h
  obtain ⟨⟨h1, h2⟩, h3⟩ := h
  refine ⟨fun p hp hpk => ?_, fun r hr hrk => ?_, fun e he hek => ?_⟩
  · have := h1 p hp; simpa [hpk] using this
  · have := h2 r hr; simpa [hrk] using this
  · have := h3 e he; simpa [hek] using this

/-- A miss of the two lower tiers when every copy under the identifier
is expired in the strict sense each tier tests. -/
theorem get_lower_miss (st : CacheState) (now : Nat) (ns ck : String)
    (hdb : ∀ r ∈ st.db, r.key = ck → r.expires_at ≤ now)
    (hfile : ∀ e ∈ st.files, e.key = ck → e.meta.expires_at < now) :
    (get_lower st now ns ck).1 = none := by
  have hfind : st.db.find? (fun r => r.key == ck && decide (now < r.expires_at)) = none := by
    rw [List.find?_eq_none]
    intro r hr
    by_cases hk : r.key = ck
    · have := hdb r hr hk
      simp [hk]
      omega
    · simp [hk]
  simp only [get_lower, get_from_database, hfind]
  cases hff : st.files.find? (fun e => e.key == ck) with
  | none => simp [get_from_file_cache, hff]
  | some fe =>
    have hin := List.mem_of_find?_eq_some hff
    have hkey : fe.key = ck := by
      have := List.find?_some hff
      simpa using this
    have hexp := hfile fe hin hkey
    simp [get_from_file_cache, hff, show fe.meta.expires_at < now from hexp]

/-- Bool identity used by the cleanup characterizations: keeping the
rows not strictly expired is keeping the rows that still live. -/
theorem not_lt_decide (a b : Nat) : (!(decide (a < b))) = decide (b ≤ a) := by
  rw [← decide_not]
  exact decide_eq_decide.mpr Nat.not_lt

/-- Composition: when the identifier is absent from the memory tier the
result of get is the result of the lower-tier probe. -/
theorem get_fresh_mem_then (st : CacheState) (now : Nat) (ns k : String)
    (args : List String) (v : PyValue)
    (hmem : ∀ p ∈ st.memory_cache, p.1 ≠ generate_key ns k args)
    (hlow : (get_lower st now ns (generate_key ns k args)).1 = some v) :
    (get st now ns k args).1 = some v := by
  rw [get_eq_lower st now ns k args (odLookup_eq_none _ _ hmem)]
  exact hlow

/-- The database row present after an upsert under a fresh identifier. -/
theorem find?_db_after_set (db : List DbRow) (ck : String) (v : PyValue) (bs : List Nat)
    (e : Nat) (cat : String) (sz noww : Nat)
    (hfresh : ∀ r ∈ db, r.key ≠ ck) (hser : pickleDumps v = some bs) :
    (set_database_cache db ck v e cat sz noww).find? (fun r => r.key == ck)
      = some { key := ck, value := bs, created_at := noww, expires_at := e,
               access_count := 0, last_accessed := noww, category := cat,
               size := if sz = 0 then bs.length else sz } := by
  simp only [set_database_cache, hser]
  rw [filter_keep_of_ne DbRow.key db ck hfresh]
  rw [find?_append_of_false _ db _ (fun r hr => by simp [hfresh r hr])]
  simp [List.find?_cons]

/-- Length of flattening equal-sized replicated chunks. -/
theorem flatten_replicate_length (n : Nat) (l : List Nat) :
    ((List.replicate n l).flatten).length = n * l.length := by
  induction n with
  | zero => simp
  | succ m ih =>
    simp only [List.replicate_succ, List.flatten_cons, List.length_append, ih]
    ring

/-- Length of the pickled form of n zero bytes, for symbolic n. -/
theorem encList_replicate_length (n : Nat) :
    (2 :: encList (List.replicate n 0)).length = (encNat n).length + n + 1 := by
  have h0 : (encNat 0).length = 1 := rfl
  simp only [List.length_cons, encList, List.length_append, List.map_replicate,
    flatten_replicate_length, h0, List.length_replicate]
  omega

/-- The pickled form of a megabyte of zero bytes is at least a megabyte. -/
theorem c6_witness_size :
    1048576 ≤ (2 :: encList (List.replicate 1048576 0)).length := by
  rw [encList_replicate_length]
  omega

/-! # Claim theorems -/

set_option maxRecDepth 8000

/-- Sanity check of the SHA-256 model against the FIPS 180-4 test
vector for the one-block message abc. -/
theorem sha256_vector_abc :
    hexdigest (sha256Bytes (utf8Bytes "abc")) =
      "ba7816bf8f01cfea414140de5dae2223b00361a396177a9cb410ff61f20015ad" := by
  decide

/-- C9: the identifier is the first 32 hex characters of the SHA-256
digest of the colon-joined components, exactly as the spec words it; it
is a pure function, order-sensitive in extraArgs, and always 32
characters long. -/
theorem c9_key_codec :
    (∀ (ns k : String) (args : List String),
        generate_key ns k args = specIdentifier ns k args) ∧
    ((generate_key "a" "b" ["1", "2"] == generate_key "a" "b" ["2", "1"]) = false) ∧
    (∀ (ns k : String) (args : List String), (generate_key ns k args).length = 32) := by
  refine ⟨?_, by decide, ?_⟩
  · intro ns k args
    cases args <;> simp [generate_key, specIdentifier, ← String.append_assoc]
  · intro ns k args
    simp only [generate_key]
    rw [generate_key_length_aux, hexdigest_length, sha256Bytes_length]
    decide

/-- C10: because components are joined with an unescaped colon, moving
a colon-suffixed fragment from the key into extraArgs yields the same
identifier, so distinct tuples alias the same cache entry. -/
theorem c10_colon_aliasing (ns k a : String) :
    generate_key ns (k ++ ":" ++ a) [] = generate_key ns k [a] := by
  simp [generate_key, joinColon, ← String.append_assoc]

/-- C5: a memory-tier put evicts from the least-recently-used end until
the count bound holds, counts exactly the removed entries as evictions,
empties the tier when the bound is zero, and every public operation
keeps the count within the bound. -/
theorem c5_memory_bound :
    (∀ (st : CacheState) (ck : String) (v : PyValue) (e : Nat),
        (set_memory_cache st ck v e).memory_cache.length ≤ st.max_memory_entries ∧
        (set_memory_cache st ck v e).memory_cache
          = (odSet st.memory_cache ck (v, e)).drop
              ((odSet st.memory_cache ck (v, e)).length - st.max_memory_entries) ∧
        (set_memory_cache st ck v e).cache_stats.evictions
          = st.cache_stats.evictions
            + ((odSet st.memory_cache ck (v, e)).length - st.max_memory_entries) ∧
        (st.max_memory_entries = 0 → (set_memory_cache st ck v e).memory_cache = [])) ∧
    (∀ (st : CacheState) (now : Nat) (ns k : String) (args : List String) (v : PyValue)
        (ttl : Option Nat) (key : Option String),
        st.memory_cache.length ≤ st.max_memory_entries →
        (((get st now ns k args).2).memory_cache.length ≤ st.max_memory_entries ∧
          (set st now ns k v ttl args).memory_cache.length ≤ st.max_memory_entries ∧
          (invalidate st ns key args).memory_cache.length ≤ st.max_memory_entries ∧
          (cleanup_expired st now).memory_cache.length ≤ st.max_memory_entries)) := by
  constructor
  · intro st ck v e
    refine ⟨set_memory_cache_length_le st ck v e, ?_, ?_, fun h0 => ?_⟩
    · simp [set_memory_cache, evict_lru_eq_drop]
    · simp [set_memory_cache, evict_lru_eq_drop]
    · have hb := set_memory_cache_length_le st ck v e
      rw [h0] at hb
      exact List.length_eq_zero.mp (Nat.le_zero.mp hb)
  · intro st now ns k args v ttl key h
    exact ⟨get_memory_length_le st now ns k args h,
      set_memory_length_le st now ns k v ttl args h,
      invalidate_memory_length_le st ns key args h,
      cleanup_memory_length_le st now h⟩

/-- Witness for C5: with a fresh manager the bound hypothesis holds and
a get leaves the memory tier within the bound. -/
theorem c5_memory_bound_witness :
    (initState 100).memory_cache.length ≤ (initState 100).max_memory_entries ∧
    ((get (initState 100) 0 "database" "q1" []).2).memory_cache.length
      ≤ (initState 100).max_memory_entries :=
  ⟨by decide,
    (c5_memory_bound.2 (initState 100) 0 "database" "q1" [] (PyValue.str "x") none none
      (by decide)).1⟩

/-- C7: cleanup removes from each tier exactly the entries expired
strictly before now, keeps every entry expiring at or after now, and a
second cleanup with the same now is the identity. -/
theorem c7_cleanup_exact (st : CacheState) (now : Nat)
    (hnd : (st.memory_cache.map (fun p => p.1)).Nodup) :
    (cleanup_expired st now).memory_cache
        = st.memory_cache.filter (fun p => decide (now ≤ p.2.2)) ∧
    (cleanup_expired st now).db = st.db.filter (fun r => decide (now ≤ r.expires_at)) ∧
    (cleanup_expired st now).files
        = st.files.filter (fun e => decide (now ≤ e.meta.expires_at)) ∧
    cleanup_expired (cleanup_expired st now) now = cleanup_expired st now := by
  obtain ⟨mx, mem, dbl, fls, stats, cfg⟩ := st
  simp only at hnd
  have hm := cleanup_mem_eq_filter now mem hnd
  refine ⟨?_, ?_, ?_, ?_⟩
  · simp only [cleanup_expired]
    exact hm
  · simp only [cleanup_expired]
    exact List.filter_congr fun r _ => not_lt_decide r.expires_at now
  · simp only [cleanup_expired]
    exact List.filter_congr fun e _ => not_lt_decide e.meta.expires_at now
  · simp only [cleanup_expired, CacheState.mk.injEq, true_and, and_true]
    rw [hm]
    have hnd2 : ((mem.filter (fun p => decide (now ≤ p.2.2))).map (fun p => p.1)).Nodup :=
      filter_map_nodup _ _ _ hnd
    refine ⟨?_, ?_, ?_⟩
    · rw [cleanup_mem_eq_filter now _ hnd2, List.filter_filter]
      exact List.filter_congr fun p _ => by simp
    · rw [List.filter_filter]
      exact List.filter_congr fun r _ => by simp
    · rw [List.filter_filter]
      exact List.filter_congr fun e _ => by simp

/-- C1: the code fails to purge a namespace from the memory tier.  An
entry of namespace database stored in the memory tier survives
invalidate of that namespace untouched (its key is a hex digest, which
never starts with the namespace string), and a later get still returns
it, contradicting the claimed namespace-wide purge across all tiers. -/
theorem c1_namespace_invalidate_bug :
    (get (invalidate (set (initState 100) 0 "database" "q1" (PyValue.str "x") (some 5) [])
        "database" none [])
      1 "database" "q1" []).1 = some (PyValue.str "x") ∧
    (invalidate (set (initState 100) 0 "database" "q1" (PyValue.str "x") (some 5) [])
        "database" none []).memory_cache
      = (set (initState 100) 0 "database" "q1" (PyValue.str "x") (some 5) []).memory_cache := by
  decide

/-- C3 counterexample: a set whose routed database write fails in
serialization returns with the state (and in particular every tier)
completely unchanged, reporting nothing: the write failure is
swallowed. -/
theorem c3_counterexample_silent_swallow :
    set (initState 100) 0 "database" "q1" (PyValue.unpicklable 2048) (some 5) []
      = initState 100 := by
  decide

/-- C3 amended: a serialization failure on the write routed to the
structured or blob tier is caught and logged; set completes normally,
leaves the whole state unchanged, and reports nothing to the caller. -/
theorem c3_write_failure_swallowed (st : CacheState) (now : Nat) (ns k : String)
    (v : PyValue) (ttl : Option Nat) (args : List String)
    (hser : pickleDumps v = none) (hsize : 1024 ≤ estimate_size v) :
    set st now ns k v ttl args = st := by
  simp only [set]
  rw [if_neg (by omega)]
  by_cases h2 : estimate_size v < 1024 * 1024
  · rw [if_pos h2]
    simp only [set_database_cache, hser]
  · rw [if_neg h2]
    simp only [set_file_cache, hser]

/-- Witness for the amended C3 at a concrete unserializable value. -/
theorem c3_write_failure_swallowed_witness :
    pickleDumps (PyValue.unpicklable 4096) = none ∧
    set (initState 100) 1 "scripts" "s1" (PyValue.unpicklable 4096) none [] = initState 100 :=
  ⟨rfl, c3_write_failure_swallowed (initState 100) 1 "scripts" "s1"
    (PyValue.unpicklable 4096) none [] rfl (by decide)⟩

/-- C2 counterexample: a blob-tier entry whose expiry is exactly now is
still returned by get: at the instant now equals expiresAt the file
tier hits, refuting the claim that every tier already misses then. -/
theorem c2_counterexample_blob_hit_at_expiry :
    (get c2CounterState 5 "files" "big" []).1 = some (PyValue.str "v") := by
  decide

/-- C2 amended: an entry is unreachable through get once past expiry in
the sense each tier tests: at or past expiresAt for the memory and
database tiers, strictly past it for the blob tier; then get misses
even though cleanupExpired never ran. -/
theorem c2_expired_entries_miss (st : CacheState) (now : Nat) (ns k : String)
    (args : List String)
    (h : all_copies_expired st (generate_key ns k args) now = true) :
    (get st now ns k args).1 = none := by
  obtain ⟨h1, h2, h3⟩ := all_copies_expired_prop st _ now h
  cases hlook : odLookup st.memory_cache (generate_key ns k args) with
  | none =>
    rw [get_eq_lower st now ns k args hlook]
    exact get_lower_miss st now ns _ h2 h3
  | some ve =>
    have hmem := odLookup_mem _ _ _ hlook
    have hexp : ve.2 ≤ now := h1 _ hmem rfl
    exact get_mem_expired_then st now ns k args ve hlook (by omega)
      (get_lower_miss _ now ns _ h2 h3)

/-- Witness for the amended C2: one expired copy in every tier at
time 5, and get misses. -/
theorem c2_expired_entries_miss_witness :
    all_copies_expired c2WitnessState (generate_key "database" "q1" []) 5 = true ∧
    (get c2WitnessState 5 "database" "q1" []).1 = none :=
  ⟨by decide, c2_expired_entries_miss c2WitnessState 5 "database" "q1" [] (by decide)⟩

/-- C4: set with a positive TTL followed by get before expiry, on an
identifier absent from every tier, returns a value equal to the one
stored, whichever tier the size routed the write to. -/
theorem c4_set_then_get (st : CacheState) (now now2 : Nat) (ns k : String)
    (args : List String) (v : PyValue) (ttl : Nat) (bs : List Nat)
    (hser : pickleDumps v = some bs)
    (hfresh : ckFresh st (generate_key ns k args) = true)
    (hmax : 1 ≤ st.max_memory_entries)
    (httl : 0 < ttl) (hnow : now2 < now + ttl) :
    (get (set st now ns k v (some ttl) args) now2 ns k args).1 = some v := by
  obtain ⟨hm, hd, hf⟩ := ckFresh_prop st _ hfresh
  simp only [set, resolve_ttl]
  by_cases h1 : estimate_size v < 1024
  · rw [if_pos h1]
    exact get_mem_hit _ now2 ns k args v (now + ttl)
      (set_memory_cache_lookup st (generate_key ns k args) v (now + ttl) hm hmax) hnow
  · rw [if_neg h1]
    by_cases h2 : estimate_size v < 1024 * 1024
    · rw [if_pos h2]
      refine get_fresh_mem_then _ now2 ns k args v hm ?_
      exact get_lower_db_hit _ now2 ns _ v (now + ttl)
        (get_from_db_after_set st.db _ v bs (now + ttl) ns _ now now2 hd hser hnow)
    · rw [if_neg h2]
      refine get_fresh_mem_then _ now2 ns k args v hm ?_
      refine get_lower_file_hit _ now2 ns _ v (now + ttl) ?_ ?_
      · exact congrArg Prod.fst (get_from_db_fresh_none st.db _ now2 hd)
      · exact congrArg Prod.fst
          (get_from_file_after_set st.files _ v bs (now + ttl) ns st.config.compression
            now now2 hf hser (by omega))

/-- Witness for C4 at a small string value routed to the memory tier. -/
theorem c4_set_then_get_witness :
    (get (set (initState 100) 0 "database" "q1" (PyValue.str "x") (some 5) [])
      3 "database" "q1" []).1 = some (PyValue.str "x") :=
  c4_set_then_get (initState 100) 0 3 "database" "q1" [] (PyValue.str "x") 5 _ rfl
    (by decide) (by decide) (by decide) (by decide)

/-- C6: a value whose pickled size routes it to the blob tier is, on a
later successful get before expiry, returned and promoted into the
memory tier and the database tier with the original expiry now + ttl
unchanged; the promoted database row keeps that same expiry and stores
the same pickled bytes. -/
theorem c6_blob_promotion (st : CacheState) (now now2 : Nat) (ns k : String)
    (args : List String) (v : PyValue) (ttl : Nat) (bs : List Nat)
    (hser : pickleDumps v = some bs)
    (hbig : 1024 * 1024 ≤ bs.length)
    (hfresh : ckFresh st (generate_key ns k args) = true)
    (hmax : 1 ≤ st.max_memory_entries)
    (hnow : now2 ≤ now + ttl) :
    ((get (set st now ns k v (some ttl) args) now2 ns k args).1 = some v) ∧
    odLookup ((get (set st now ns k v (some ttl) args) now2 ns k args).2).memory_cache
        (generate_key ns k args) = some (v, now + ttl) ∧
    ((get (set st now ns k v (some ttl) args) now2 ns k args).2).db.find?
        (fun r => r.key == generate_key ns k args)
      = some { key := generate_key ns k args, value := bs, created_at := now2,
               expires_at := now + ttl, access_count := 0, last_accessed := now2,
               category := ns, size := bs.length } := by
  obtain ⟨hm, hd, hf⟩ := ckFresh_prop st _ hfresh
  have hsz : estimate_size v = bs.length := by simp [estimate_size, hser]
  have hset : set st now ns k v (some ttl) args
      = { st with files := (set_file_cache st.files (generate_key ns k args) v (now + ttl)
            ns st.config.compression now) } := by
    simp only [set, resolve_ttl]
    rw [if_neg (by omega), if_neg (by omega)]
  rw [hset]
  rw [get_eq_lower _ now2 ns k args (odLookup_eq_none _ _ (by exact hm))]
  have hdbX : get_from_database
      ({ st with files := (set_file_cache st.files (generate_key ns k args) v (now + ttl)
          ns st.config.compression now) } : CacheState).db (generate_key ns k args) now2
      = (none, st.db) :=
    get_from_db_fresh_none st.db _ now2 hd
  have hfX : get_from_file_cache
      (set_file_cache st.files (generate_key ns k args) v (now + ttl)
        ns st.config.compression now) (generate_key ns k args) now2
      = (some (v, now + ttl),
         set_file_cache st.files (generate_key ns k args) v (now + ttl)
           ns st.config.compression now) :=
    get_from_file_after_set st.files _ v bs (now + ttl) ns st.config.compression
      now now2 hf hser hnow
  simp only [get_lower, hdbX, hfX]
  refine ⟨trivial, ?_, ?_⟩
  · exact set_memory_cache_lookup _ (generate_key ns k args) v (now + ttl)
      (by exact hm) (by exact hmax)
  · exact find?_db_after_set st.db (generate_key ns k args) v bs (now + ttl) ns 0 now2
      (by exact hd) hser

/-- Witness for C6: a megabyte bytes value stored under files big. -/
theorem c6_blob_promotion_witness :
    (get (set (initState 100) 0 "files" "big" (PyValue.bytes (List.replicate 1048576 0))
      (some 7) []) 3 "files" "big" []).1
      = some (PyValue.bytes (List.replicate 1048576 0)) :=
  (c6_blob_promotion (initState 100) 0 3 "files" "big" []
    (PyValue.bytes (List.replicate 1048576 0)) 7 _ rfl c6_witness_size (by decide)
    (by decide) (by decide)).1

/-- C8: with the default configuration every set writes to exactly one
tier chosen by its estimated serialized size: below 1 KiB only the
memory tier changes, from 1 KiB below 1 MiB only the database tier,
from 1 MiB up only the file tier; the other two tiers are untouched in
each case. -/
theorem c8_size_routing (st : CacheState) (now : Nat) (ns k : String) (v : PyValue)
    (ttl : Option Nat) (args : List String) :
    (estimate_size v < 1024 →
      set st now ns k v ttl args
        = set_memory_cache st (generate_key ns k args) v
            (now + resolve_ttl st.config ns ttl) ∧
      (set st now ns k v ttl args).db = st.db ∧
      (set st now ns k v ttl args).files = st.files) ∧
    (1024 ≤ estimate_size v → estimate_size v < 1024 * 1024 →
      (set st now ns k v ttl args).memory_cache = st.memory_cache ∧
      (set st now ns k v ttl args).files = st.files ∧
      (set st now ns k v ttl args).db
        = set_database_cache st.db (generate_key ns k args) v
            (now + resolve_ttl st.config ns ttl) ns (estimate_size v) now) ∧
    (1024 * 1024 ≤ estimate_size v →
      (set st now ns k v ttl args).memory_cache = st.memory_cache ∧
      (set st now ns k v ttl args).db = st.db ∧
      (set st now ns k v ttl args).files
        = set_file_cache st.files (generate_key ns k args) v
            (now + resolve_ttl st.config ns ttl) ns st.config.compression now) := by
  refine ⟨fun h1 => ?_, fun h1 h2 => ?_, fun h1 => ?_⟩
  · simp only [set]
    rw [if_pos h1]
    exact ⟨rfl, rfl, rfl⟩
  · simp only [set]
    rw [if_neg (by omega), if_pos h2]
    exact ⟨rfl, rfl, rfl⟩
  · simp only [set]
    rw [if_neg (by omega), if_neg (by omega)]
    exact ⟨rfl, rfl, rfl⟩

/-- Witness for C8: a small string routed to the memory tier leaves the
database tier untouched. -/
theorem c8_size_routing_witness :
    estimate_size (PyValue.str "x") < 1024 ∧
    (set (initState 100) 0 "database" "q1" (PyValue.str "x") (some 5) []).db
      = (initState 100).db :=
  ⟨by decide, ((c8_size_routing (initState 100) 0 "database" "q1" (PyValue.str "x")
    (some 5) []).1 (by decide)).2.1⟩

/-- Witness for C7: a state holding one live and one expired entry per
tier, swept at time 5. -/
theorem c7_cleanup_exact_witness :
    ((({ initState 100 with
          memory_cache := [("aaa", (.str "x", 3)), ("bbb", (.str "y", 9))] } :
        CacheState).memory_cache.map (fun p => p.1)).Nodup) ∧
    (cleanup_expired
        ({ initState 100 with
            memory_cache := [("aaa", (.str "x", 3)), ("bbb", (.str "y", 9))] } :
          CacheState) 5).memory_cache
      = [("bbb", (.str "y", 9))] := by
  constructor
  · decide
  · rw [(c7_cleanup_exact
      ({ initState 100 with
          memory_cache := [("aaa", (.str "x", 3)), ("bbb", (.str "y", 9))] } :
        CacheState) 5 (by decide)).1]
    decide

end RACache
